import Mathlib

/-!
Verification of the revision-lifecycle and environment-toggle state machine of
the togglelabs feature-flag service.

The embedding follows the feature-flag HTTP handler (package
`featureflaghandler`): the in-memory transformation each handler applies to
the loaded `FeatureFlagRecord` before persisting it.  Authentication,
request binding, persistence and audit recording are outside the model: on
the modelled path the handlers run the loops below unconditionally and
report success.

Go `primitive.ObjectID` values are modelled as `Nat`, with `0` standing for
`primitive.NilObjectID` (the zero value, meaning "absent").  The Go `int`
field `Version` is modelled as `Int`.  Record fields not touched by these
handlers (name, type, default value, rules, timestamps, ...) are omitted.
-/

namespace Togglelabs

/-- Revision status, from the feature-flag model package
(`featureflagmodel.Draft`, `.Live`, `.Archived`), as used by the handler. -/
inductive RevisionStatus where
  | Draft
  | Live
  | Archived
deriving DecidableEq

/-- One revision of a flag: id, status and the backlink `LastRevisionID`
(`0` = `primitive.NilObjectID`, i.e. absent). -/
structure Revision where
  id : Nat
  status : RevisionStatus
  lastRevisionID : Nat
deriving DecidableEq

/-- One deployment environment of a flag. -/
structure Environment where
  name : String
  isEnabled : Bool
deriving DecidableEq

/-- The flag aggregate as the handlers see it: version counter, ordered
revision sequence, ordered environment list. -/
structure FeatureFlagRecord where
  version : Int
  revisions : List Revision
  environments : List Environment
deriving DecidableEq

/-- The revision loop of `ApproveRevision` (src part_000, lines 458-468).
Each Go iteration works on a copy `revision` of the current slot taken at the
start of the iteration; the first branch archives a Live revision and records
its id in the mutable variable `lastRevisionID` (the accumulator here), the
second branch promotes the slot whose copy matches the target id with status
Draft, assigning it the current value of `lastRevisionID`. -/
def approveLoop (revisionID : Nat) : List Revision → Nat → List Revision
  | [], _ => []
  | r :: rs, lastRevisionID =>
    let p :=
      if r.status = RevisionStatus.Live then
        ({ r with status := RevisionStatus.Archived }, r.id)
      else
        (r, lastRevisionID)
    let r2 :=
      if r.id = revisionID ∧ r.status = RevisionStatus.Draft then
        { p.1 with status := RevisionStatus.Live, lastRevisionID := p.2 }
      else
        p.1
    r2 :: approveLoop revisionID rs p.2

/-- The state transformation of the `ApproveRevision` handler
(src part_000, lines 458-469): run the loop with `lastRevisionID`
starting at the zero ObjectID, then increment the version.  The handler has
no validation branch: it always performs this transformation and persists. -/
def ApproveRevision (flag : FeatureFlagRecord) (revisionID : Nat) : FeatureFlagRecord :=
  { flag with
      revisions := approveLoop revisionID flag.revisions 0
      version := flag.version + 1 }

/-- First loop of `RollbackFeatureFlagVersion` (src part_000, lines 581-588):
every Live slot becomes Draft with its `LastRevisionID` zeroed, and the
mutable `newRevisionID` (accumulator) records the copy's `LastRevisionID`. -/
def rollbackLoopA : List Revision → Nat → List Revision × Nat
  | [], newRevisionID => ([], newRevisionID)
  | r :: rs, newRevisionID =>
    let p :=
      if r.status = RevisionStatus.Live then
        ({ r with status := RevisionStatus.Draft, lastRevisionID := 0 }, r.lastRevisionID)
      else
        (r, newRevisionID)
    let q := rollbackLoopA rs p.2
    (p.1 :: q.1, q.2)

/-- Second loop of `RollbackFeatureFlagVersion` (src part_000, lines
589-593): the slot whose id equals `newRevisionID` and whose status is
Archived becomes Live. -/
def rollbackLoopB (newRevisionID : Nat) : List Revision → List Revision
  | [] => []
  | r :: rs =>
    (if r.id = newRevisionID ∧ r.status = RevisionStatus.Archived then
        { r with status := RevisionStatus.Live }
      else
        r) :: rollbackLoopB newRevisionID rs

/-- The state transformation of the `RollbackFeatureFlagVersion` handler
(src part_000, lines 581-594): both loops, then decrement the version.
The handler has no validation branch: it always performs this
transformation and persists. -/
def RollbackFeatureFlagVersion (flag : FeatureFlagRecord) : FeatureFlagRecord :=
  let p := rollbackLoopA flag.revisions 0
  { flag with
      revisions := rollbackLoopB p.2 p.1
      version := flag.version - 1 }

/-- The environment loop of `ToggleFeatureFlag` (src part_000, lines
808-813): every environment whose name equals the query parameter has its
`IsEnabled` flipped. -/
def toggleLoop (environmentName : String) : List Environment → List Environment
  | [] => []
  | e :: es =>
    (if e.name = environmentName then { e with isEnabled := !e.isEnabled } else e)
      :: toggleLoop environmentName es

/-- The state transformation of the `ToggleFeatureFlag` handler
(src part_000, lines 808-823): only the environment list is rewritten. -/
def ToggleFeatureFlag (flag : FeatureFlagRecord) (environmentName : String) :
    FeatureFlagRecord :=
  { flag with environments := toggleLoop environmentName flag.environments }

/-- A lifecycle operation: one approve (with its target revision id) or one
rollback. -/
inductive Op where
  | approve (revisionID : Nat)
  | rollback
deriving DecidableEq

/-- Apply one lifecycle operation. -/
def applyOp (flag : FeatureFlagRecord) : Op → FeatureFlagRecord
  | Op.approve revisionID => ApproveRevision flag revisionID
  | Op.rollback => RollbackFeatureFlagVersion flag

/-- Apply a finite sequence of lifecycle operations, left to right. -/
def applyOps (flag : FeatureFlagRecord) : List Op → FeatureFlagRecord
  | [] => flag
  | op :: ops => applyOps (applyOp flag op) ops

/-- Iterate the rollback transformation `n` times. -/
def rollbackN : Nat → FeatureFlagRecord → FeatureFlagRecord
  | 0, flag => flag
  | n + 1, flag => rollbackN n (RollbackFeatureFlagVersion flag)

/-- Number of revisions in the list whose status is Live. -/
def liveCount (l : List Revision) : Nat :=
  (l.filter fun r => r.status = RevisionStatus.Live).length

/-- The invariant of the spec: at most one Live revision. -/
def atMostOneLive (flag : FeatureFlagRecord) : Prop :=
  liveCount flag.revisions ≤ 1

instance (flag : FeatureFlagRecord) : Decidable (atMostOneLive flag) :=
  inferInstanceAs (Decidable (liveCount flag.revisions ≤ 1))

/-- The ids of a revision list, in order. -/
def revisionIDs (l : List Revision) : List Nat :=
  l.map Revision.id

/-- Archive a revision when it is Live, leave it alone otherwise: the net
effect of the approve loop on every slot other than the promoted target. -/
def archiveLive (r : Revision) : Revision :=
  if r.status = RevisionStatus.Live then { r with status := RevisionStatus.Archived } else r

/-- Value of the `lastRevisionID` accumulator of the approve loop after
scanning `l` starting from `acc`: the id of the last Live revision of `l`,
or `acc` when `l` has none. -/
def lastLiveId (l : List Revision) (acc : Nat) : Nat :=
  l.foldl (fun a r => if r.status = RevisionStatus.Live then r.id else a) acc

lemma lastLiveId_cons (r : Revision) (l : List Revision) (acc : Nat) :
    lastLiveId (r :: l) acc
      = lastLiveId l (if r.status = RevisionStatus.Live then r.id else acc) := rfl

lemma lastLiveId_append (l1 l2 : List Revision) (acc : Nat) :
    lastLiveId (l1 ++ l2) acc = lastLiveId l2 (lastLiveId l1 acc) := by
  simp [lastLiveId, List.foldl_append]

lemma lastLiveId_no_live (l : List Revision)
    (h : ∀ r ∈ l, r.status ≠ RevisionStatus.Live) (acc : Nat) :
    lastLiveId l acc = acc := by
  induction l generalizing acc with
  | nil => rfl
  | cons r rs ih =>
    rw [lastLiveId_cons, if_neg (h r (List.mem_cons_self r rs))]
    exact ih (fun x hx => h x (List.mem_cons_of_mem r hx)) acc

lemma lastLiveId_of_live_suffix (p1 : List Revision) (a : Revision) (p2 : List Revision)
    (ha : a.status = RevisionStatus.Live)
    (h2 : ∀ r ∈ p2, r.status ≠ RevisionStatus.Live) (acc : Nat) :
    lastLiveId (p1 ++ a :: p2) acc = a.id := by
  rw [lastLiveId_append, lastLiveId_cons, if_pos ha, lastLiveId_no_live p2 h2]

lemma approveLoop_cons_of_live {r : Revision} (t : Nat) (rs : List Revision) (acc : Nat)
    (h : r.status = RevisionStatus.Live) :
    approveLoop t (r :: rs) acc
      = { r with status := RevisionStatus.Archived } :: approveLoop t rs r.id := by
  simp [approveLoop, h]

lemma approveLoop_cons_of_target {r : Revision} (rs : List Revision) (acc : Nat)
    (h : r.status = RevisionStatus.Draft) :
    approveLoop r.id (r :: rs) acc
      = { r with status := RevisionStatus.Live, lastRevisionID := acc }
          :: approveLoop r.id rs acc := by
  simp [approveLoop, h]

lemma approveLoop_cons_of_other {r : Revision} (t : Nat) (rs : List Revision) (acc : Nat)
    (hl : r.status ≠ RevisionStatus.Live)
    (hn : ¬(r.id = t ∧ r.status = RevisionStatus.Draft)) :
    approveLoop t (r :: rs) acc = r :: approveLoop t rs acc := by
  simp [approveLoop, hl, hn]

lemma approveLoop_append (t : Nat) (l1 l2 : List Revision) (acc : Nat) :
    approveLoop t (l1 ++ l2) acc
      = approveLoop t l1 acc ++ approveLoop t l2 (lastLiveId l1 acc) := by
  induction l1 generalizing acc with
  | nil => simp [approveLoop, lastLiveId]
  | cons r rs ih =>
    rw [List.cons_append, lastLiveId_cons]
    by_cases h : r.status = RevisionStatus.Live
    · rw [approveLoop_cons_of_live t (rs ++ l2) acc h, ih r.id,
        approveLoop_cons_of_live t rs acc h, if_pos h, List.cons_append]
    · by_cases hn : r.id = t ∧ r.status = RevisionStatus.Draft
      · obtain ⟨h1, h2⟩ := hn
        subst h1
        rw [approveLoop_cons_of_target (rs ++ l2) acc h2, ih acc,
          approveLoop_cons_of_target rs acc h2, if_neg h, List.cons_append]
      · rw [approveLoop_cons_of_other t (rs ++ l2) acc h hn, ih acc,
          approveLoop_cons_of_other t rs acc h hn, if_neg h, List.cons_append]

lemma approveLoop_no_target (t : Nat) (l : List Revision) (acc : Nat)
    (h : ∀ r ∈ l, ¬(r.id = t ∧ r.status = RevisionStatus.Draft)) :
    approveLoop t l acc = l.map archiveLive := by
  induction l generalizing acc with
  | nil => rfl
  | cons r rs ih =>
    have htail : ∀ x ∈ rs, ¬(x.id = t ∧ x.status = RevisionStatus.Draft) :=
      fun x hx => h x (List.mem_cons_of_mem r hx)
    by_cases hl : r.status = RevisionStatus.Live
    · rw [approveLoop_cons_of_live t rs acc hl, ih r.id htail, List.map_cons]
      simp [archiveLive, hl]
    · rw [approveLoop_cons_of_other t rs acc hl (h r (List.mem_cons_self r rs)), ih acc htail,
        List.map_cons]
      simp [archiveLive, hl]

lemma map_archiveLive_of_no_live (l : List Revision)
    (h : ∀ r ∈ l, r.status ≠ RevisionStatus.Live) : l.map archiveLive = l := by
  induction l with
  | nil => rfl
  | cons r rs ih =>
    rw [List.map_cons, ih (fun x hx => h x (List.mem_cons_of_mem r hx))]
    simp [archiveLive, h r (List.mem_cons_self r rs)]

lemma liveCount_cons (r : Revision) (rs : List Revision) :
    liveCount (r :: rs)
      = (if r.status = RevisionStatus.Live then 1 else 0) + liveCount rs := by
  by_cases h : r.status = RevisionStatus.Live <;>
    simp [liveCount, List.filter_cons, h, Nat.add_comm]

lemma revisionIDs_cons (r : Revision) (rs : List Revision) :
    revisionIDs (r :: rs) = r.id :: revisionIDs rs := rfl

lemma approveLoop_ids (t : Nat) (l : List Revision) (acc : Nat) :
    revisionIDs (approveLoop t l acc) = revisionIDs l := by
  induction l generalizing acc with
  | nil => rfl
  | cons r rs ih =>
    by_cases hl : r.status = RevisionStatus.Live
    · rw [approveLoop_cons_of_live t rs acc hl, revisionIDs_cons, revisionIDs_cons, ih r.id]
    · by_cases hn : r.id = t ∧ r.status = RevisionStatus.Draft
      · obtain ⟨h1, h2⟩ := hn
        subst h1
        rw [approveLoop_cons_of_target rs acc h2, revisionIDs_cons, revisionIDs_cons, ih acc]
      · rw [approveLoop_cons_of_other t rs acc hl hn, revisionIDs_cons, revisionIDs_cons, ih acc]

lemma liveCount_approveLoop (t : Nat) (l : List Revision) (acc : Nat) :
    liveCount (approveLoop t l acc)
      = (l.filter fun r => r.id = t ∧ r.status = RevisionStatus.Draft).length := by
  induction l generalizing acc with
  | nil => rfl
  | cons r rs ih =>
    by_cases hl : r.status = RevisionStatus.Live
    · have hn : ¬(r.id = t ∧ r.status = RevisionStatus.Draft) := by
        rintro ⟨-, h2⟩
        rw [hl] at h2
        exact RevisionStatus.noConfusion h2
      rw [approveLoop_cons_of_live t rs acc hl, liveCount_cons, List.filter_cons, ih r.id]
      simp [hn]
    · by_cases hn : r.id = t ∧ r.status = RevisionStatus.Draft
      · obtain ⟨h1, h2⟩ := hn
        subst h1
        rw [approveLoop_cons_of_target rs acc h2, liveCount_cons, List.filter_cons, ih acc]
        simp [h2, Nat.add_comm]
      · rw [approveLoop_cons_of_other t rs acc hl hn, liveCount_cons, List.filter_cons, ih acc]
        simp [hl, hn]

lemma length_filter_id_status_le_one (l : List Revision) (t : Nat) (s : RevisionStatus)
    (h : (revisionIDs l).Nodup) :
    (l.filter fun r => r.id = t ∧ r.status = s).length ≤ 1 := by
  induction l with
  | nil => simp
  | cons r rs ih =>
    rw [revisionIDs_cons, List.nodup_cons] at h
    obtain ⟨hmem, hnd⟩ := h
    rw [List.filter_cons]
    by_cases hc : r.id = t ∧ r.status = s
    · simp [hc]
      intro x hx hxt
      exfalso
      have hxmem : x.id ∈ revisionIDs rs := List.mem_map_of_mem Revision.id hx
      rw [hxt, ← hc.1] at hxmem
      exact hmem hxmem
    · simp only [hc, decide_eq_true_eq, if_false, decide_False]
      simpa using ih hnd

lemma rollbackLoopA_cons_of_live {r : Revision} (rs : List Revision) (acc : Nat)
    (h : r.status = RevisionStatus.Live) :
    rollbackLoopA (r :: rs) acc
      = ({ r with status := RevisionStatus.Draft, lastRevisionID := 0 }
           :: (rollbackLoopA rs r.lastRevisionID).1,
         (rollbackLoopA rs r.lastRevisionID).2) := by
  simp [rollbackLoopA, h]

lemma rollbackLoopA_cons_of_not_live {r : Revision} (rs : List Revision) (acc : Nat)
    (h : r.status ≠ RevisionStatus.Live) :
    rollbackLoopA (r :: rs) acc
      = (r :: (rollbackLoopA rs acc).1, (rollbackLoopA rs acc).2) := by
  simp [rollbackLoopA, h]

lemma rollbackLoopA_no_live (l : List Revision) (acc : Nat)
    (h : ∀ r ∈ l, r.status ≠ RevisionStatus.Live) :
    rollbackLoopA l acc = (l, acc) := by
  induction l generalizing acc with
  | nil => rfl
  | cons r rs ih =>
    rw [rollbackLoopA_cons_of_not_live rs acc (h r (List.mem_cons_self r rs)),
      ih acc (fun x hx => h x (List.mem_cons_of_mem r hx))]

lemma rollbackLoopA_append (l1 l2 : List Revision) (acc : Nat) :
    rollbackLoopA (l1 ++ l2) acc
      = ((rollbackLoopA l1 acc).1 ++ (rollbackLoopA l2 (rollbackLoopA l1 acc).2).1,
         (rollbackLoopA l2 (rollbackLoopA l1 acc).2).2) := by
  induction l1 generalizing acc with
  | nil => simp [rollbackLoopA]
  | cons r rs ih =>
    rw [List.cons_append]
    by_cases h : r.status = RevisionStatus.Live
    · rw [rollbackLoopA_cons_of_live (rs ++ l2) acc h, ih r.lastRevisionID,
        rollbackLoopA_cons_of_live rs acc h, List.cons_append]
    · rw [rollbackLoopA_cons_of_not_live (rs ++ l2) acc h, ih acc,
        rollbackLoopA_cons_of_not_live rs acc h, List.cons_append]

lemma liveCount_rollbackLoopA (l : List Revision) (acc : Nat) :
    liveCount (rollbackLoopA l acc).1 = 0 := by
  induction l generalizing acc with
  | nil => rfl
  | cons r rs ih =>
    by_cases h : r.status = RevisionStatus.Live
    · rw [rollbackLoopA_cons_of_live rs acc h]
      simpa [liveCount_cons] using ih r.lastRevisionID
    · rw [rollbackLoopA_cons_of_not_live rs acc h]
      simpa [liveCount_cons, h] using ih acc

lemma rollbackLoopA_ids (l : List Revision) (acc : Nat) :
    revisionIDs (rollbackLoopA l acc).1 = revisionIDs l := by
  induction l generalizing acc with
  | nil => rfl
  | cons r rs ih =>
    by_cases h : r.status = RevisionStatus.Live
    · rw [rollbackLoopA_cons_of_live rs acc h, revisionIDs_cons, revisionIDs_cons,
        ih r.lastRevisionID]
    · rw [rollbackLoopA_cons_of_not_live rs acc h, revisionIDs_cons, revisionIDs_cons, ih acc]

lemma rollbackLoopB_eq_map (t : Nat) (l : List Revision) :
    rollbackLoopB t l
      = l.map fun r =>
          if r.id = t ∧ r.status = RevisionStatus.Archived then
            { r with status := RevisionStatus.Live }
          else r := by
  induction l with
  | nil => rfl
  | cons r rs ih => rw [rollbackLoopB, List.map_cons, ih]

lemma rollbackLoopB_ids (t : Nat) (l : List Revision) :
    revisionIDs (rollbackLoopB t l) = revisionIDs l := by
  induction l with
  | nil => rfl
  | cons r rs ih =>
    rw [rollbackLoopB, revisionIDs_cons, revisionIDs_cons, ih]
    by_cases h : r.id = t ∧ r.status = RevisionStatus.Archived <;> simp [h]

lemma rollbackLoopB_no_match (t : Nat) (l : List Revision)
    (h : ∀ r ∈ l, ¬(r.id = t ∧ r.status = RevisionStatus.Archived)) :
    rollbackLoopB t l = l := by
  induction l with
  | nil => rfl
  | cons r rs ih =>
    rw [rollbackLoopB, ih (fun x hx => h x (List.mem_cons_of_mem r hx)),
      if_neg (h r (List.mem_cons_self r rs))]

lemma liveCount_rollbackLoopB (t : Nat) (l : List Revision) (h0 : liveCount l = 0) :
    liveCount (rollbackLoopB t l)
      = (l.filter fun r => r.id = t ∧ r.status = RevisionStatus.Archived).length := by
  induction l with
  | nil => rfl
  | cons r rs ih =>
    rw [liveCount_cons] at h0
    have hrl : r.status ≠ RevisionStatus.Live := by
      intro hr
      rw [if_pos hr] at h0
      exact Nat.noConfusion (Nat.eq_zero_of_add_eq_zero_right h0)
    rw [if_neg hrl, Nat.zero_add] at h0
    rw [rollbackLoopB, List.filter_cons]
    by_cases hc : r.id = t ∧ r.status = RevisionStatus.Archived
    · rw [if_pos hc, liveCount_cons, ih h0]
      simp [hc, Nat.add_comm]
    · rw [if_neg hc, liveCount_cons, ih h0]
      simp [hc, hrl]

lemma ApproveRevision_def (flag : FeatureFlagRecord) (t : Nat) :
    (ApproveRevision flag t).revisions = approveLoop t flag.revisions 0
      ∧ (ApproveRevision flag t).version = flag.version + 1
      ∧ (ApproveRevision flag t).environments = flag.environments :=
  ⟨rfl, rfl, rfl⟩

lemma RollbackFeatureFlagVersion_def (flag : FeatureFlagRecord) :
    (RollbackFeatureFlagVersion flag).revisions
        = rollbackLoopB (rollbackLoopA flag.revisions 0).2 (rollbackLoopA flag.revisions 0).1
      ∧ (RollbackFeatureFlagVersion flag).version = flag.version - 1
      ∧ (RollbackFeatureFlagVersion flag).environments = flag.environments :=
  ⟨rfl, rfl, rfl⟩

lemma applyOp_ids (flag : FeatureFlagRecord) (op : Op) :
    revisionIDs (applyOp flag op).revisions = revisionIDs flag.revisions := by
  cases op with
  | approve t =>
    rw [applyOp, (ApproveRevision_def flag t).1, approveLoop_ids]
  | rollback =>
    rw [applyOp, (RollbackFeatureFlagVersion_def flag).1, rollbackLoopB_ids, rollbackLoopA_ids]

lemma applyOp_liveCount_le_one (flag : FeatureFlagRecord) (op : Op)
    (hids : (revisionIDs flag.revisions).Nodup) :
    liveCount (applyOp flag op).revisions ≤ 1 := by
  cases op with
  | approve t =>
    rw [applyOp, (ApproveRevision_def flag t).1, liveCount_approveLoop]
    exact length_filter_id_status_le_one _ t _ hids
  | rollback =>
    rw [applyOp, (RollbackFeatureFlagVersion_def flag).1,
      liveCount_rollbackLoopB _ _ (liveCount_rollbackLoopA flag.revisions 0)]
    refine length_filter_id_status_le_one _ _ _ ?_
    rw [rollbackLoopA_ids]
    exact hids

/-- Claim C1: for every flag whose revision sequence initially contains at most
one Live revision (and whose revision ids are distinct, as Mongo ObjectIDs
are), any finite sequence of Approve and Rollback handler transformations
still leaves at most one Live revision. -/
theorem approve_rollback_preserve_at_most_one_live
    (flag : FeatureFlagRecord) (ops : List Op)
    (hids : (revisionIDs flag.revisions).Nodup)
    (hone : atMostOneLive flag) :
    atMostOneLive (applyOps flag ops) := by
  induction ops generalizing flag with
  | nil => exact hone
  | cons op ops ih =>
    rw [applyOps]
    refine ih (applyOp flag op) ?_ (applyOp_liveCount_le_one flag op hids)
    rw [applyOp_ids]
    exact hids

/-- Witness for claim C1: two drafts, approve both in turn, then roll back;
at most one revision is Live at the end. -/
theorem approve_rollback_preserve_at_most_one_live_witness :
    atMostOneLive
      (applyOps ⟨1, [⟨1, RevisionStatus.Draft, 0⟩, ⟨2, RevisionStatus.Draft, 0⟩], []⟩
        [Op.approve 1, Op.approve 2, Op.rollback]) :=
  approve_rollback_preserve_at_most_one_live
    ⟨1, [⟨1, RevisionStatus.Draft, 0⟩, ⟨2, RevisionStatus.Draft, 0⟩], []⟩
    [Op.approve 1, Op.approve 2, Op.rollback] (by decide) (by decide)

/-- Claim C7: every rollback decrements the version counter by exactly one,
with no lower clamp: after `n` rollbacks the version is the initial value
minus `n`, and in particular two rollbacks on a fresh flag of version 1 drive
it to -1. -/
theorem rollback_version_unclamped (flag : FeatureFlagRecord) :
    (RollbackFeatureFlagVersion flag).version = flag.version - 1
      ∧ (∀ n : Nat, (rollbackN n flag).version = flag.version - n)
      ∧ (rollbackN 2 ⟨1, [], []⟩).version = -1 := by
  refine ⟨rfl, ?_, by decide⟩
  intro n
  induction n generalizing flag with
  | zero => simp [rollbackN]
  | succ n ih =>
    rw [rollbackN, ih (RollbackFeatureFlagVersion flag),
      (RollbackFeatureFlagVersion_def flag).2.1]
    push_cast
    ring

/-- Claim C9: the Toggle handler rewrites only the environment list; the
revision sequence and the version counter are untouched. -/
theorem toggle_preserves_revisions_and_version
    (flag : FeatureFlagRecord) (environmentName : String) :
    (ToggleFeatureFlag flag environmentName).revisions = flag.revisions
      ∧ (ToggleFeatureFlag flag environmentName).version = flag.version :=
  ⟨rfl, rfl⟩

lemma toggleLoop_eq_map (environmentName : String) (l : List Environment) :
    toggleLoop environmentName l
      = l.map fun e =>
          if e.name = environmentName then { e with isEnabled := !e.isEnabled } else e := by
  induction l with
  | nil => rfl
  | cons e es ih => rw [toggleLoop, List.map_cons, ih]

lemma toggleLoop_no_match (environmentName : String) (l : List Environment)
    (h : ∀ e ∈ l, e.name ≠ environmentName) :
    toggleLoop environmentName l = l := by
  induction l with
  | nil => rfl
  | cons e es ih =>
    rw [toggleLoop, ih (fun x hx => h x (List.mem_cons_of_mem e hx)),
      if_neg (h e (List.mem_cons_self e es))]

/-- Claim C8: Toggle flips the `isEnabled` of the environment carrying
exactly the requested (case-sensitive) name and leaves every other
environment untouched; when no environment carries the name, the whole
environment list is returned unchanged (and the handler raises no error:
its transformation is total). -/
theorem toggle_flips_exactly_matching_environment
    (flag : FeatureFlagRecord) (environmentName : String) :
    (∀ pre post (e : Environment), flag.environments = pre ++ e :: post →
        e.name = environmentName →
        (∀ x ∈ pre, x.name ≠ environmentName) →
        (∀ x ∈ post, x.name ≠ environmentName) →
        (ToggleFeatureFlag flag environmentName).environments
          = pre ++ { e with isEnabled := !e.isEnabled } :: post)
      ∧ ((∀ e ∈ flag.environments, e.name ≠ environmentName) →
          (ToggleFeatureFlag flag environmentName).environments = flag.environments) := by
  constructor
  · intro pre post e heq hname hpre hpost
    have henv : (ToggleFeatureFlag flag environmentName).environments
        = toggleLoop environmentName flag.environments := rfl
    rw [henv, heq, toggleLoop_eq_map, List.map_append, List.map_cons, if_pos hname]
    rw [← toggleLoop_eq_map, ← toggleLoop_eq_map, toggleLoop_no_match _ _ hpre,
      toggleLoop_no_match _ _ hpost]
  · intro h
    have henv : (ToggleFeatureFlag flag environmentName).environments
        = toggleLoop environmentName flag.environments := rfl
    rw [henv, toggleLoop_no_match _ _ h]

/-- Witness for claim C8, the scenario of the spec: environments
prod disabled / staging enabled, toggling prod enables prod and leaves
staging alone. -/
theorem toggle_flips_exactly_matching_environment_witness :
    (ToggleFeatureFlag ⟨1, [], [⟨"prod", false⟩, ⟨"staging", true⟩]⟩ "prod").environments
      = [⟨"prod", true⟩, ⟨"staging", true⟩] :=
  (toggle_flips_exactly_matching_environment
      ⟨1, [], [⟨"prod", false⟩, ⟨"staging", true⟩]⟩ "prod").1
    [] [⟨"staging", true⟩] ⟨"prod", false⟩ rfl rfl
    (by intro x hx; cases hx) (by decide)

lemma liveCount_append (l1 l2 : List Revision) :
    liveCount (l1 ++ l2) = liveCount l1 + liveCount l2 := by
  simp [liveCount, List.filter_append]

lemma liveCount_eq_zero_of_no_live (l : List Revision)
    (h : ∀ r ∈ l, r.status ≠ RevisionStatus.Live) : liveCount l = 0 := by
  induction l with
  | nil => rfl
  | cons r rs ih =>
    rw [liveCount_cons, if_neg (h r (List.mem_cons_self r rs)),
      ih (fun x hx => h x (List.mem_cons_of_mem r hx))]

/-- Claim C3 (amended): approving a Draft revision promotes it to Live,
archives any Live revision, touches no other revision, and increments the
version; the promoted revision's backlink is set to the id of the most
recent Live revision occurring BEFORE the target in sequence order, and is
the nil id 0 (absent) when no Live revision precedes the target — even if a
Live revision follows it. -/
theorem approve_promotes_draft_target
    (v : Int) (envs : List Environment) (pre post : List Revision) (d : Revision)
    (hd : d.status = RevisionStatus.Draft)
    (hpre : ∀ r ∈ pre, r.id ≠ d.id) (hpost : ∀ r ∈ post, r.id ≠ d.id) :
    ApproveRevision ⟨v, pre ++ d :: post, envs⟩ d.id
        = ⟨v + 1,
           pre.map archiveLive
             ++ { d with status := RevisionStatus.Live,
                         lastRevisionID := lastLiveId pre 0 } :: post.map archiveLive,
           envs⟩
      ∧ ((∀ r ∈ pre, r.status ≠ RevisionStatus.Live) → lastLiveId pre 0 = 0)
      ∧ (∀ p1 (a : Revision) p2, pre = p1 ++ a :: p2 → a.status = RevisionStatus.Live →
          (∀ r ∈ p2, r.status ≠ RevisionStatus.Live) → lastLiveId pre 0 = a.id) := by
  refine ⟨?_, fun h => lastLiveId_no_live pre h 0, ?_⟩
  · have hrev : approveLoop d.id (pre ++ d :: post) 0
        = pre.map archiveLive
            ++ { d with status := RevisionStatus.Live,
                        lastRevisionID := lastLiveId pre 0 } :: post.map archiveLive := by
      rw [approveLoop_append,
        approveLoop_no_target d.id pre 0
          (fun r hr hc => hpre r hr hc.1),
        approveLoop_cons_of_target post (lastLiveId pre 0) hd,
        approveLoop_no_target d.id post (lastLiveId pre 0)
          (fun r hr hc => hpost r hr hc.1)]
    show FeatureFlagRecord.mk (v + 1) (approveLoop d.id (pre ++ d :: post) 0) envs = _
    rw [hrev]
  · intro p1 a p2 hpe ha h2
    rw [hpe]
    exact lastLiveId_of_live_suffix p1 a p2 ha h2 0

/-- Counterexample to claim C3 as stated: in a flag whose Draft target
(id 1) precedes its Live revision (id 2), approving revision 1 promotes it
but records the nil backlink 0, not the id 2 of the revision that was Live
before the call. -/
theorem approve_backlink_lost_counterexample :
    ∃ r ∈ (ApproveRevision
        ⟨1, [⟨1, RevisionStatus.Draft, 0⟩, ⟨2, RevisionStatus.Live, 0⟩], []⟩ 1).revisions,
      r.id = 1 ∧ r.status = RevisionStatus.Live ∧ r.lastRevisionID ≠ 2 := by
  decide

/-- Witness for claim C3: a Live revision (id 2) followed by a Draft
revision (id 1); approving the draft archives revision 2 and promotes
revision 1 with backlink 2, version 1 → 2. -/
theorem approve_promotes_draft_target_witness :
    ApproveRevision ⟨1, [⟨2, RevisionStatus.Live, 0⟩, ⟨1, RevisionStatus.Draft, 0⟩], []⟩ 1
      = ⟨2, [⟨2, RevisionStatus.Archived, 0⟩, ⟨1, RevisionStatus.Live, 2⟩], []⟩ :=
  ((approve_promotes_draft_target 1 [] [⟨2, RevisionStatus.Live, 0⟩] []
      ⟨1, RevisionStatus.Draft, 0⟩ rfl (by decide) (by decide)).1).trans (by decide)

/-- Claim C10: when the approve target is the flag's unique Live revision,
the handler archives it (the promote branch tests the slot's status before
the same iteration archived it, and Live is not Draft): the flag ends with
zero Live revisions, every other revision untouched, and the version is
still incremented. -/
theorem approve_live_target_archives_it
    (v : Int) (envs : List Environment) (pre post : List Revision) (A : Revision)
    (hA : A.status = RevisionStatus.Live)
    (hnlpre : ∀ r ∈ pre, r.status ≠ RevisionStatus.Live)
    (hnlpost : ∀ r ∈ post, r.status ≠ RevisionStatus.Live)
    (hidpre : ∀ r ∈ pre, r.id ≠ A.id)
    (hidpost : ∀ r ∈ post, r.id ≠ A.id) :
    ApproveRevision ⟨v, pre ++ A :: post, envs⟩ A.id
        = ⟨v + 1, pre ++ { A with status := RevisionStatus.Archived } :: post, envs⟩
      ∧ liveCount (ApproveRevision ⟨v, pre ++ A :: post, envs⟩ A.id).revisions = 0 := by
  have hrev : approveLoop A.id (pre ++ A :: post) 0
      = pre ++ { A with status := RevisionStatus.Archived } :: post := by
    rw [approveLoop_append,
      approveLoop_no_target A.id pre 0 (fun r hr hc => hidpre r hr hc.1),
      approveLoop_cons_of_live A.id post (lastLiveId pre 0) hA,
      approveLoop_no_target A.id post A.id (fun r hr hc => hidpost r hr hc.1),
      map_archiveLive_of_no_live pre hnlpre, map_archiveLive_of_no_live post hnlpost]
  constructor
  · show FeatureFlagRecord.mk (v + 1) (approveLoop A.id (pre ++ A :: post) 0) envs = _
    rw [hrev]
  · show liveCount (approveLoop A.id (pre ++ A :: post) 0) = 0
    rw [hrev, liveCount_append, liveCount_eq_zero_of_no_live pre hnlpre, liveCount_cons]
    rw [liveCount_eq_zero_of_no_live post hnlpost]
    simp

/-- Witness for claim C10: a flag whose only revision (id 1) is Live;
approving revision 1 archives it, leaving zero Live revisions, and the
version still moves 1 → 2. -/
theorem approve_live_target_archives_it_witness :
    ApproveRevision ⟨1, [⟨1, RevisionStatus.Live, 0⟩], []⟩ 1
        = ⟨2, [⟨1, RevisionStatus.Archived, 0⟩], []⟩
      ∧ liveCount (ApproveRevision ⟨1, [⟨1, RevisionStatus.Live, 0⟩], []⟩ 1).revisions = 0 := by
  have h := approve_live_target_archives_it 1 [] [] [] ⟨1, RevisionStatus.Live, 0⟩ rfl
    (by decide) (by decide) (by decide) (by decide)
  exact ⟨h.1.trans (by decide), h.2⟩

lemma rollbackLoopB_append (t : Nat) (l1 l2 : List Revision) :
    rollbackLoopB t (l1 ++ l2) = rollbackLoopB t l1 ++ rollbackLoopB t l2 := by
  rw [rollbackLoopB_eq_map, rollbackLoopB_eq_map, rollbackLoopB_eq_map, List.map_append]

/-- Claim C6 (amended): a flag whose unique Live revision `A` (any backlink
value, at any position before the Draft revision `B`) is approved at `B` and
then rolled back comes back to: `A` Live and entirely unchanged (its
backlink is NOT cleared), `B` Draft with ITS backlink cleared to the nil id,
same version.  Revision ids are assumed distinct, as Mongo ObjectIDs are. -/
theorem approve_then_rollback_restores
    (v : Int) (envs : List Environment) (pre mid post : List Revision)
    (aid alast bid blast : Nat)
    (hnl : ∀ r, r ∈ pre ∨ r ∈ mid ∨ r ∈ post → r.status ≠ RevisionStatus.Live)
    (hidA : ∀ r, r ∈ pre ∨ r ∈ mid ∨ r ∈ post → r.id ≠ aid)
    (hidB : ∀ r, r ∈ pre ∨ r ∈ mid ∨ r ∈ post → r.id ≠ bid)
    (hAB : aid ≠ bid) :
    RollbackFeatureFlagVersion (ApproveRevision
        ⟨v, pre ++ ⟨aid, RevisionStatus.Live, alast⟩
              :: (mid ++ ⟨bid, RevisionStatus.Draft, blast⟩ :: post), envs⟩ bid)
      = ⟨v, pre ++ ⟨aid, RevisionStatus.Live, alast⟩
              :: (mid ++ ⟨bid, RevisionStatus.Draft, 0⟩ :: post), envs⟩ := by
  have hrev1 : approveLoop bid
      (pre ++ ⟨aid, RevisionStatus.Live, alast⟩
        :: (mid ++ ⟨bid, RevisionStatus.Draft, blast⟩ :: post)) 0
      = pre ++ ⟨aid, RevisionStatus.Archived, alast⟩
          :: (mid ++ ⟨bid, RevisionStatus.Live, aid⟩ :: post) := by
    rw [approveLoop_append,
      approveLoop_no_target bid pre 0 (fun r hr hc => hidB r (Or.inl hr) hc.1),
      map_archiveLive_of_no_live pre (fun r hr => hnl r (Or.inl hr)),
      lastLiveId_no_live pre (fun r hr => hnl r (Or.inl hr)) 0,
      approveLoop_cons_of_live bid (mid ++ ⟨bid, RevisionStatus.Draft, blast⟩ :: post) 0 rfl,
      approveLoop_append,
      approveLoop_no_target bid mid _ (fun r hr hc => hidB r (Or.inr (Or.inl hr)) hc.1),
      map_archiveLive_of_no_live mid (fun r hr => hnl r (Or.inr (Or.inl hr))),
      lastLiveId_no_live mid (fun r hr => hnl r (Or.inr (Or.inl hr))) _,
      approveLoop_cons_of_target (r := ⟨bid, RevisionStatus.Draft, blast⟩) post _ rfl,
      approveLoop_no_target bid post _ (fun r hr hc => hidB r (Or.inr (Or.inr hr)) hc.1),
      map_archiveLive_of_no_live post (fun r hr => hnl r (Or.inr (Or.inr hr)))]
  have hloopA : rollbackLoopA
      (pre ++ ⟨aid, RevisionStatus.Archived, alast⟩
        :: (mid ++ ⟨bid, RevisionStatus.Live, aid⟩ :: post)) 0
      = (pre ++ ⟨aid, RevisionStatus.Archived, alast⟩
           :: (mid ++ ⟨bid, RevisionStatus.Draft, 0⟩ :: post), aid) := by
    rw [rollbackLoopA_append,
      rollbackLoopA_no_live pre _ (fun r hr => hnl r (Or.inl hr)),
      rollbackLoopA_cons_of_not_live (r := ⟨aid, RevisionStatus.Archived, alast⟩)
        (mid ++ ⟨bid, RevisionStatus.Live, aid⟩ :: post) _
        (by intro h; exact RevisionStatus.noConfusion h),
      rollbackLoopA_append,
      rollbackLoopA_no_live mid _ (fun r hr => hnl r (Or.inr (Or.inl hr))),
      rollbackLoopA_cons_of_live (r := ⟨bid, RevisionStatus.Live, aid⟩) post _ rfl,
      rollbackLoopA_no_live post _ (fun r hr => hnl r (Or.inr (Or.inr hr)))]
  have hloopB : rollbackLoopB aid
      (pre ++ ⟨aid, RevisionStatus.Archived, alast⟩
        :: (mid ++ ⟨bid, RevisionStatus.Draft, 0⟩ :: post))
      = pre ++ ⟨aid, RevisionStatus.Live, alast⟩
          :: (mid ++ ⟨bid, RevisionStatus.Draft, 0⟩ :: post) := by
    rw [rollbackLoopB_append,
      rollbackLoopB_no_match aid pre
        (fun r hr hc => hidA r (Or.inl hr) hc.1),
      rollbackLoopB, if_pos ⟨rfl, rfl⟩,
      rollbackLoopB_append,
      rollbackLoopB_no_match aid mid
        (fun r hr hc => hidA r (Or.inr (Or.inl hr)) hc.1),
      rollbackLoopB, if_neg (fun hc => hAB hc.1.symm),
      rollbackLoopB_no_match aid post
        (fun r hr hc => hidA r (Or.inr (Or.inr hr)) hc.1)]
  show RollbackFeatureFlagVersion
      ⟨v + 1,
        approveLoop bid
          (pre ++ ⟨aid, RevisionStatus.Live, alast⟩
            :: (mid ++ ⟨bid, RevisionStatus.Draft, blast⟩ :: post)) 0, envs⟩ = _
  rw [hrev1]
  show FeatureFlagRecord.mk (v + 1 - 1)
      (rollbackLoopB
        (rollbackLoopA (pre ++ ⟨aid, RevisionStatus.Archived, alast⟩
          :: (mid ++ ⟨bid, RevisionStatus.Live, aid⟩ :: post)) 0).2
        (rollbackLoopA (pre ++ ⟨aid, RevisionStatus.Archived, alast⟩
          :: (mid ++ ⟨bid, RevisionStatus.Live, aid⟩ :: post)) 0).1) envs = _
  rw [hloopA]
  show FeatureFlagRecord.mk (v + 1 - 1)
      (rollbackLoopB aid
        (pre ++ ⟨aid, RevisionStatus.Archived, alast⟩
          :: (mid ++ ⟨bid, RevisionStatus.Draft, 0⟩ :: post))) envs = _
  rw [hloopB]
  have hv : v + 1 - 1 = v := by ring
  rw [hv]

/-- Witness for claim C6 (amended): Live revision 1 then Draft revision 2,
approve 2 then rollback comes back to the original flag exactly. -/
theorem approve_then_rollback_restores_witness :
    RollbackFeatureFlagVersion (ApproveRevision
        ⟨5, [⟨1, RevisionStatus.Live, 0⟩, ⟨2, RevisionStatus.Draft, 0⟩], []⟩ 2)
      = ⟨5, [⟨1, RevisionStatus.Live, 0⟩, ⟨2, RevisionStatus.Draft, 0⟩], []⟩ :=
  approve_then_rollback_restores 5 [] [] [] [] 1 0 2 0
    (by intro r hr; rcases hr with h | h | h <;> cases h)
    (by intro r hr; rcases hr with h | h | h <;> cases h)
    (by intro r hr; rcases hr with h | h | h <;> cases h)
    (by decide)

/-- Counterexample to claim C6 as stated: when the Live revision `A` (id 1)
enters the round trip with a non-nil backlink (here 2), Approve(B)+Rollback
restores `A` Live, `B` (id 3) Draft, and the original version, but
`A.lastRevisionID` is NOT cleared — it is still 2.  The backlink that is
cleared is `B`'s. -/
theorem approve_then_rollback_backlink_counterexample :
    ¬ (∀ r ∈ (RollbackFeatureFlagVersion (ApproveRevision
          ⟨5, [⟨1, RevisionStatus.Live, 2⟩, ⟨2, RevisionStatus.Archived, 0⟩,
               ⟨3, RevisionStatus.Draft, 0⟩], []⟩ 3)).revisions,
        r.id = 1 → r.lastRevisionID = 0) := by
  decide

/-- Claim C2 evidence: the approve handler has no precondition check.
Approving a revision that is already Live (left conjunct) or a revision id
that does not exist (right conjunct) does not fail with any error: it
silently archives the Live revision and increments the version, so the flag
is NOT left unchanged. -/
theorem approve_invalid_target_still_mutates :
    ApproveRevision ⟨1, [⟨1, RevisionStatus.Live, 0⟩], []⟩ 1
        = ⟨2, [⟨1, RevisionStatus.Archived, 0⟩], []⟩
      ∧ ApproveRevision ⟨1, [⟨1, RevisionStatus.Live, 0⟩], []⟩ 99
        = ⟨2, [⟨1, RevisionStatus.Archived, 0⟩], []⟩ := by
  decide

/-- Claim C4 evidence: the rollback handler has no NoActiveRevision guard.
Rolling back a flag with zero Live revisions leaves the revisions unchanged
but still decrements the version from 5 to 4 and reports success. -/
theorem rollback_without_live_still_decrements :
    RollbackFeatureFlagVersion ⟨5, [⟨1, RevisionStatus.Draft, 0⟩], []⟩
      = ⟨4, [⟨1, RevisionStatus.Draft, 0⟩], []⟩ := by
  decide

/-- Claim C5 evidence: the rollback handler has no corrupt-chain guard.
With a Live revision whose backlink names a Draft (not Archived) revision,
rollback does not fail with InvalidStateTransition: it demotes the Live
revision, restores nothing, decrements the version and leaves zero Live
revisions. -/
theorem rollback_corrupt_chain_still_mutates :
    RollbackFeatureFlagVersion
        ⟨5, [⟨1, RevisionStatus.Live, 2⟩, ⟨2, RevisionStatus.Draft, 0⟩], []⟩
        = ⟨4, [⟨1, RevisionStatus.Draft, 0⟩, ⟨2, RevisionStatus.Draft, 0⟩], []⟩
      ∧ liveCount (RollbackFeatureFlagVersion
          ⟨5, [⟨1, RevisionStatus.Live, 2⟩, ⟨2, RevisionStatus.Draft, 0⟩], []⟩).revisions
        = 0 := by
  decide

end Togglelabs
